import Mathlib

/-!
Shallow embedding of the CustomAllocator heap manager (src/malloc.c).

Addresses are modelled as natural numbers.  The process heap state holds the
two global pointers (heap_start, heap_end), a store of header records indexed
by address (reading an address with no record yields a garbage header whose
magic is 0, so it fails the magic check, like uninitialized memory usually
would), and a store of data bytes (reading an unwritten byte yields 0; theorems
about zeroing quantify over arbitrary junk contents so the default never does
the work).

Machine arithmetic: size_t and pointer values are modelled as Nat; the two
places where the source's unsigned wrap-around is semantically load-bearing
are modelled explicitly: the cast of a pointer difference to size_t is `usub`
(wrap modulo 2^64) and the size_t multiplication in custom_calloc is taken
modulo 2^64.

The sbrk collaborator is modelled by two oracle arguments threaded into each
operation: `ok` tells whether the (at most one) sbrk call made by the
operation succeeds, and `base` is the address sbrk hands out when the heap is
first created.  Loops over the header chain take an explicit fuel argument;
running out of fuel is reported as `none` by the searches (real traversals of
well-formed chains are finite, and every theorem below either supplies enough
fuel or is insensitive to the distinction).
-/

/-- sizeof(header_t) on the 64-bit target: 8 (size_t) + 4 (uint32_t) + 4
  (padding) + 8 (pointer). -/
def HSIZE : Nat := 24

/-- Magic number for headers (malloc.c line 19). -/
def MAGIC : Nat := 0xDEADC0DE

/-- Header which sits right before a block of user memory (struct header). -/
structure Header where
  dsize : Nat
  magic : Nat
  next : Option Nat
deriving DecidableEq, Repr

/-- The global allocator state: heap_start, heap_end, the header records in
  memory, and the user data bytes in memory. -/
structure Heap where
  start : Option Nat
  hend : Nat
  hdrs : List (Nat × Header)
  mem : List (Nat × Nat)
deriving DecidableEq, Repr

/-- Read the header record at an address; an address never written as a
  header reads as garbage (magic 0, which is not MAGIC). -/
def readHdr (st : Heap) (a : Nat) : Header :=
  (st.hdrs.lookup a).getD { dsize := 0, magic := 0, next := none }

/-- Store a header record at an address. -/
def writeHdr (st : Heap) (a : Nat) (h : Header) : Heap :=
  { st with hdrs := (a, h) :: st.hdrs }

/-- Read one data byte. -/
def readByte (st : Heap) (a : Nat) : Nat :=
  (st.mem.lookup a).getD 0

/-- Write one data byte. -/
def writeByte (st : Heap) (a v : Nat) : Heap :=
  { st with mem := (a, v) :: st.mem }

/-- The C cast (size_t)(p - q) of a pointer difference: subtraction in Int
  followed by reduction modulo 2^64 to an unsigned value. -/
def usub (a b : Nat) : Nat :=
  (((a : Int) - (b : Int)).emod (2 ^ 64)).toNat

/-- memset(p, 0, n) writing byte v over [a, a + n). -/
def memsetBytes (st : Heap) (a v : Nat) : Nat → Heap
  | 0 => st
  | n + 1 => memsetBytes (writeByte st a v) (a + 1) v n

/-- memcpy(dst, src, n) over the data bytes. -/
def memcpyBytes (st : Heap) (dst src : Nat) : Nat → Heap
  | 0 => st
  | n + 1 => memcpyBytes (writeByte st dst (readByte st src)) (dst + 1) (src + 1) n

/-- insert_block (malloc.c lines 34-45): write a fresh header at addr and,
  when a previous header is given, redirect its next field to addr. -/
def insert_block (st : Heap) (addr dsize : Nat) (prev next : Option Nat) : Heap :=
  let st1 := writeHdr st addr { dsize := dsize, magic := MAGIC, next := next }
  match prev with
  | none => st1
  | some pa => writeHdr st1 pa { readHdr st1 pa with next := some addr }

/-- init_heap (malloc.c lines 50-60): sbrk the dummy header plus the first
  block; on failure heap_start is set back to NULL, on success the dummy head
  is written at the start and heap_end is placed past the claimed region. -/
def init_heap (ok : Bool) (base : Nat) (st : Heap) (bsize : Nat) : Heap :=
  let initial_size := HSIZE + bsize
  if ok then
    let st1 := { st with start := some base, hend := base + initial_size }
    insert_block st1 base 0 none none
  else
    { st with start := none }

/-- expand_heap (malloc.c lines 64-79): extend heap_end if the new block
  sticks out past it; returns 0 on success and -1 on sbrk failure. -/
def expand_heap (ok : Bool) (st : Heap) (block_start bsize : Nat) : Int × Heap :=
  let block_end := block_start + bsize
  if st.hend < block_end then
    let expansion := block_end - st.hend
    if ok then (0, { st with hend := st.hend + expansion })
    else (-1, st)
  else (0, st)

/-- valid_header (malloc.c lines 83-92): NULL is valid; otherwise the pointer
  must lie in [heap_start, heap_end - sizeof(header_t)] and carry the magic. -/
def valid_header (st : Heap) (hp : Option Nat) : Bool :=
  match hp with
  | none => true
  | some a =>
    if st.start.getD 0 ≤ a ∧ a ≤ st.hend - HSIZE then
      (readHdr st a).magic == MAGIC
    else
      false

/-- find_opening (malloc.c lines 97-125), with fuel.  Result: `none` when the
  fuel runs out, `some none` for the NULL (corruption) return, and
  `some (some (block_start, prev, next))` for a successful placement. -/
def find_opening (st : Heap) (bsize : Nat) : Nat → Nat → Option (Option (Nat × Nat × Option Nat))
  | 0, _ => none
  | fuel + 1, curr =>
    let h := readHdr st curr
    let curr_block_size := HSIZE + h.dsize
    match h.next with
    | none => some (some (curr + curr_block_size, curr, none))
    | some nxt =>
      let curr_block_end := curr + curr_block_size
      let open_space := usub nxt curr_block_end
      if bsize ≤ open_space then
        some (some (curr_block_end, curr, some nxt))
      else if valid_header st (some nxt) then
        find_opening st bsize fuel nxt
      else
        some none

/-- can_expand (malloc.c lines 129-142).  For a last block it calls
  expand_heap and ignores the result; for a non-last block it compares the
  size_t cast of (next_block_start - new_block_end) against 0, which on Nat
  (as on size_t) is always true.  Both quirks are in the source. -/
def can_expand (ok : Bool) (st : Heap) (block s : Nat) : Bool × Heap :=
  let new_block_end := block + HSIZE + s
  match (readHdr st block).next with
  | none =>
    let r := expand_heap ok st block (s + HSIZE)
    (true, r.2)
  | some nxt =>
    (decide (0 ≤ usub nxt new_block_end), st)

/-- The three meaningful returns of find_block: NULL (not found), (void * ) -1
  (corruption), or the found block together with the prev out-parameter (none
  when the loop never wrote it, which the source leaves uninitialized). -/
inductive BlockRes where
  | notFound
  | corrupted
  | found (prev : Option Nat)
deriving DecidableEq, Repr

/-- find_block (malloc.c lines 146-163), with fuel (outer `none` = fuel ran
  out).  curr starts at heap_start in the callers. -/
def find_block (st : Heap) (target : Nat) : Nat → Option Nat → Option Nat → Option BlockRes
  | 0, _, _ => none
  | fuel + 1, currOpt, prev =>
    match currOpt with
    | none => some .notFound
    | some curr =>
      if curr = target then some (.found prev)
      else
        let nxt := (readHdr st curr).next
        if valid_header st nxt then find_block st target fuel nxt (some curr)
        else some .corrupted

/-- The body of custom_malloc after heap initialization (malloc.c lines
  180-199): find an opening, expand the heap when appending past the end of a
  heap that was not just initialized, and splice the new block in. -/
def malloc_body (ok : Bool) (fuel : Nat) (just_init : Bool) (st0 : Heap) (s hs : Nat) :
    Option Nat × Heap :=
  let bsize := HSIZE + s
  match find_opening st0 bsize fuel hs with
  | none => (none, st0)
  | some none => (none, st0)
  | some (some (bstart, prev, nxt)) =>
    let r := if nxt.isNone && !just_init then expand_heap ok st0 bstart bsize
             else ((0 : Int), st0)
    if r.1 = -1 then (none, r.2)
    else (some (bstart + HSIZE), insert_block r.2 bstart s (some prev) nxt)

/-- custom_malloc (malloc.c lines 167-200). -/
def custom_malloc (ok : Bool) (base fuel : Nat) (st : Heap) (s : Nat) : Option Nat × Heap :=
  match st.start with
  | none =>
    let st1 := init_heap ok base st (HSIZE + s)
    match st1.start with
    | none => (none, st1)
    | some hs => malloc_body ok fuel true st1 s hs
  | some hs => malloc_body ok fuel false st s hs

/-- custom_free (malloc.c lines 269-291).  The C function returns void; the
  model returns the (possibly updated) heap state.  The `found none` arm is
  unreachable from the public entry (the dummy head is filtered out before
  find_block runs), mirroring that the source would otherwise use an
  uninitialized prev. -/
def custom_free (fuel : Nat) (st : Heap) (p : Option Nat) : Heap :=
  match p with
  | none => st
  | some pa =>
    match st.start with
    | none => st
    | some hs =>
      if usub pa HSIZE = hs then st
      else
        let target := usub pa HSIZE
        match find_block st target fuel (some hs) none with
        | none => st
        | some .notFound => st
        | some .corrupted => st
        | some (.found none) => st
        | some (.found (some pv)) =>
          writeHdr st pv { readHdr st pv with next := (readHdr st target).next }

/-- custom_realloc (malloc.c lines 205-245). -/
def custom_realloc (ok : Bool) (base fuel : Nat) (st : Heap) (p : Option Nat) (s : Nat) :
    Option Nat × Heap :=
  match p with
  | none => custom_malloc ok base fuel st s
  | some pa =>
    if s = 0 then (none, custom_free fuel st p)
    else
      let target := usub pa HSIZE
      match find_block st target fuel st.start none with
      | none => (none, st)
      | some .notFound => (none, st)
      | some .corrupted => (none, st)
      | some (.found _prev) =>
        let ce := can_expand ok st target s
        if ce.1 then
          let st2 := writeHdr ce.2 target { readHdr ce.2 target with dsize := s }
          (some (target + HSIZE), st2)
        else
          let m := custom_malloc ok base fuel ce.2 s
          match m.1 with
          | none => (none, m.2)
          | some na =>
            let st3 := memcpyBytes m.2 na pa ((readHdr m.2 target).dsize)
            let st4 := custom_free fuel st3 p
            (some na, st4)

/-- custom_calloc (malloc.c lines 250-265).  The size_t product wraps
  modulo 2^64. -/
def custom_calloc (ok : Bool) (base fuel : Nat) (st : Heap) (nmemb s : Nat) :
    Option Nat × Heap :=
  if nmemb = 0 || s = 0 then (none, st)
  else
    let size := (nmemb * s) % 2 ^ 64
    let m := custom_malloc ok base fuel st size
    match m.1 with
    | none => (none, m.2)
    | some a => (some a, memsetBytes m.2 a 0 size)

/-- A header address passes the validity check (bounds + magic). -/
def okHdr (st : Heap) (a : Nat) : Bool := valid_header st (some a)

/-- The header chain hanging off address a: chainB st a rest holds when the
  successive next links from a run exactly through rest, every link target
  passes the validity check, each block ends at or before its successor, and
  the last element's next is NULL.  This is the uncorrupted-heap shape the
  spec's data-model invariants describe. -/
def chainB (st : Heap) : Nat → List Nat → Bool
  | a, [] => (readHdr st a).next == none
  | a, b :: rest =>
    ((readHdr st a).next == some b)
      && decide (a + HSIZE + (readHdr st a).dsize ≤ b)
      && okHdr st b
      && chainB st b rest

/-- First-fit placement as the spec words it (§4.1): walk the chain from the
  dummy head; for each header compute the gap between the end of its data and
  its successor; select the first gap of at least the requested block size;
  if no header has a successor gap that fits, place after the last block.
  Returns the placement address together with the surrounding headers. -/
def specFirstFit (st : Heap) (bsize : Nat) : Nat → List Nat → Nat × Nat × Option Nat
  | a, [] => (a + HSIZE + (readHdr st a).dsize, a, none)
  | a, b :: rest =>
    let aEnd := a + HSIZE + (readHdr st a).dsize
    if bsize ≤ b - aEnd then (aEnd, a, some b) else specFirstFit st bsize b rest

/-- The public operation surface, with the oracle and fuel data each call
  carries. -/
inductive AllocOp where
  | mallocOp (ok : Bool) (base fuel s : Nat)
  | reallocOp (ok : Bool) (base fuel : Nat) (p : Option Nat) (s : Nat)
  | callocOp (ok : Bool) (base fuel n e : Nat)
  | freeOp (fuel : Nat) (p : Option Nat)

/-- State effect of one public operation. -/
def runOp : AllocOp → Heap → Heap
  | .mallocOp ok base fuel s, st => (custom_malloc ok base fuel st s).2
  | .reallocOp ok base fuel p s, st => (custom_realloc ok base fuel st p s).2
  | .callocOp ok base fuel n e, st => (custom_calloc ok base fuel st n e).2
  | .freeOp fuel p, st => custom_free fuel st p

/-- State effect of a sequence of public operations. -/
def runOps (ops : List AllocOp) (st : Heap) : Heap :=
  ops.foldl (fun st op => runOp op st) st

/-- The pre-initialization discipline the globals satisfy in any real run:
  while heap_start is still NULL, heap_end is still NULL (0) as well. -/
abbrev HeapPre (st : Heap) : Prop := st.start = none → st.hend = 0

/-- Both global heap pointers survive a step: heap_start unchanged, heap_end
  not decreased. -/
def StepOk (st st2 : Heap) : Prop := st.start = st2.start ∧ st.hend ≤ st2.hend

/-- Concrete heap for counterexamples: dummy head at 100, a 4-byte block at
  148 whose successor sits at 200 (24 bytes of slack), an 8-byte last block
  at 200, heap_end 300. -/
def cexHeapA : Heap :=
  { start := some 100, hend := 300,
    hdrs := [(100, ⟨0, MAGIC, some 148⟩), (148, ⟨4, MAGIC, some 200⟩),
             (200, ⟨8, MAGIC, none⟩)],
    mem := [] }

/-- Concrete heap whose single real block (4 bytes at 148) is the last block;
  heap_end 176 leaves no slack at all. -/
def cexHeapL : Heap :=
  { start := some 100, hend := 176,
    hdrs := [(100, ⟨0, MAGIC, some 148⟩), (148, ⟨4, MAGIC, none⟩)],
    mem := [] }

/-- Uninitialized heap whose memory holds a junk byte 7 at address 148 (the
  address the first zero-size allocation will hand out). -/
def cexHeapJ : Heap := { start := none, hend := 0, hdrs := [], mem := [(148, 7)] }

/-! ## Helper lemmas -/

lemma usub_of_le (a b : Nat) (hba : b ≤ a) (ha : a < 2 ^ 64) : usub a b = a - b := by
  have h1 : ((a : Int) - b) = ((a - b : Nat) : Int) := by omega
  have h3 : ((a - b : Nat) : Int) < 2 ^ 64 := by
    exact_mod_cast Nat.lt_of_le_of_lt (Nat.sub_le a b) ha
  show ((((a : Int) - (b : Int)) % (2 ^ 64)).toNat) = a - b
  rw [h1, Int.emod_eq_of_lt (Int.natCast_nonneg _) h3]
  simp

lemma readHdr_writeHdr_self (st : Heap) (a : Nat) (h : Header) :
    readHdr (writeHdr st a h) a = h := by
  simp [readHdr, writeHdr, List.lookup]

lemma can_expand_fst_true (ok : Bool) (st : Heap) (b s : Nat) :
    (can_expand ok st b s).1 = true := by
  unfold can_expand
  cases h : (readHdr st b).next <;> simp

lemma expand_heap_neg (ok : Bool) (st : Heap) (b bs : Nat) :
    (expand_heap ok st b bs).1 = -1 → (expand_heap ok st b bs).2 = st := by
  cases ok <;> simp only [expand_heap] <;> split <;> simp_all

lemma malloc_body_none (ok : Bool) (fuel : Nat) (ji : Bool) (st0 : Heap) (s hs : Nat) :
    (malloc_body ok fuel ji st0 s hs).1 = none → (malloc_body ok fuel ji st0 s hs).2 = st0 := by
  simp only [malloc_body]
  split
  · intro _; rfl
  · intro _; rfl
  · split
    next hcond =>
      split
      next hneg => intro _; exact expand_heap_neg _ _ _ _ hneg
      next hpos => intro hc; simp at hc
    next hcond =>
      split
      next h0 => simp at h0
      next h0 => intro hc; simp at hc

lemma malloc_none (ok : Bool) (base fuel : Nat) (st : Heap) (s : Nat) (hf : 1 ≤ fuel) :
    (custom_malloc ok base fuel st s).1 = none → (custom_malloc ok base fuel st s).2 = st := by
  obtain ⟨f, rfl⟩ : ∃ f, fuel = f + 1 := ⟨fuel - 1, by omega⟩
  simp only [custom_malloc]
  cases hst : st.start with
  | some hs => exact malloc_body_none ok (f + 1) false st s hs
  | none =>
    cases hok : ok with
    | false =>
      simp only [init_heap, Bool.false_eq_true, if_false]
      intro _
      obtain ⟨s1, h1, l1, m1⟩ := st
      simp at hst
      simp [hst]
    | true =>
      intro hc
      exfalso
      simp [init_heap, insert_block, writeHdr, malloc_body, find_opening, readHdr,
            List.lookup] at hc

lemma realloc_none (ok : Bool) (base fuel : Nat) (st : Heap) (p : Option Nat) (s : Nat)
    (hf : 1 ≤ fuel) (hs0 : s ≠ 0) :
    (custom_realloc ok base fuel st p s).1 = none → (custom_realloc ok base fuel st p s).2 = st := by
  cases p with
  | none => exact malloc_none ok base fuel st s hf
  | some pa =>
    simp only [custom_realloc, if_neg hs0]
    cases hfb : find_block st (usub pa HSIZE) fuel st.start none with
    | none => simp [hfb]
    | some br =>
      cases br with
      | notFound => simp [hfb]
      | corrupted => simp [hfb]
      | found prev => simp [hfb, can_expand_fst_true]

lemma calloc_none (ok : Bool) (base fuel : Nat) (st : Heap) (n e : Nat) (hf : 1 ≤ fuel) :
    (custom_calloc ok base fuel st n e).1 = none → (custom_calloc ok base fuel st n e).2 = st := by
  simp only [custom_calloc]
  split
  · intro _; rfl
  · cases hm : (custom_malloc ok base fuel st ((n * e) % 2 ^ 64)).1 with
    | none =>
      intro _
      simp only [hm]
      exact malloc_none ok base fuel st _ hf hm
    | some a => simp [hm]

/-! ## Claim theorems -/

/-- C1: the in-place eligibility check does NOT require room before the
  successor header.  In cexHeapA the block at 148 has its successor at 200,
  so growing its data to 1000 bytes (new end 1172) cannot fit, yet
  can_expand accepts, and custom_realloc on the corresponding data pointer
  172 updates the recorded size in place and returns the same pointer.
  This evaluates the code at the failing input of the claim. -/
theorem c1_can_expand_accepts_without_room :
    (can_expand true cexHeapA 148 1000).1 = true
    ∧ 200 < 148 + HSIZE + 1000
    ∧ (readHdr cexHeapA 148).next = some 200
    ∧ (custom_realloc true 0 9 cexHeapA (some 172) 1000).1 = some 172
    ∧ (readHdr (custom_realloc true 0 9 cexHeapA (some 172) 1000).2 148).dsize = 1000 := by
  refine ⟨by decide, by decide, by decide, by decide, by decide⟩

/-- C3: resizing the last block when the region-growth request fails.  In
  cexHeapL the block at 148 is last and heap_end is 176; growing to 1000
  bytes needs sbrk, which is refused (ok = false).  expand_heap's -1 is
  ignored by can_expand, so realloc returns the original pointer with the
  recorded size updated to 1000 while heap_end is still 176 — instead of
  returning null with the size unchanged as the claim states. -/
theorem c3_realloc_ignores_growth_failure :
    (custom_realloc false 0 9 cexHeapL (some 172) 1000).1 = some 172
    ∧ (custom_realloc false 0 9 cexHeapL (some 172) 1000).2.hend = 176
    ∧ (readHdr (custom_realloc false 0 9 cexHeapL (some 172) 1000).2 148).dsize = 1000
    ∧ cexHeapL.hend = 176
    ∧ 176 < 148 + HSIZE + 1000 := by
  refine ⟨by decide, by decide, by decide, by decide, by decide⟩

/-- C4: the allocate-copy-release path is not taken even when in-place growth
  should be ineligible.  In cexHeapA the block at 148 has only 24 bytes of
  slack before the header at 200, yet resize to 600 bytes returns the same
  pointer 172, leaves the old block linked after the dummy head, keeps its
  header in place (size merely rewritten) and moves no data bytes — no fresh
  allocation, no copy, no release happened. -/
theorem c4_copy_path_not_taken :
    (custom_realloc true 0 9 cexHeapA (some 172) 600).1 = some 172
    ∧ 200 < 148 + HSIZE + 600
    ∧ (readHdr (custom_realloc true 0 9 cexHeapA (some 172) 600).2 100).next = some 148
    ∧ readHdr (custom_realloc true 0 9 cexHeapA (some 172) 600).2 148
        = { dsize := 600, magic := MAGIC, next := some 200 }
    ∧ (custom_realloc true 0 9 cexHeapA (some 172) 600).2.mem = cexHeapA.mem := by
  refine ⟨by decide, by decide, by decide, by decide, by decide⟩

/-- C2 counterexample: a resize call that returns null but does NOT leave the
  original pointer's block linked: custom_realloc with new size 0 releases
  the block (the dummy head at 100 no longer links to 148) and returns null. -/
theorem c2_realloc_zero_unlinks_cex :
    (custom_realloc true 0 9 cexHeapL (some 172) 0).1 = none
    ∧ (readHdr cexHeapL 100).next = some 148
    ∧ (readHdr (custom_realloc true 0 9 cexHeapL (some 172) 0).2 100).next = none := by
  refine ⟨by decide, by decide, by decide⟩

/-- C2 (amended): every failure result other than the deliberate
  resize(p, 0) release leaves the heap state (start, end, header list and
  all data bytes) exactly as it was: a null from allocate, a null from a
  resize with nonzero new size, a null from zero-allocate, and every silent
  no-op of release — null pointer, uninitialized heap, candidate header at
  the heap start (dummy head), lookup not-found and lookup corruption — are
  all state-preserving. -/
theorem c2_failure_preserves_state :
    ∀ (ok : Bool) (base fuel : Nat) (st : Heap) (p : Option Nat) (s n e pa hs : Nat),
      1 ≤ fuel →
      ((custom_malloc ok base fuel st s).1 = none →
        (custom_malloc ok base fuel st s).2 = st)
      ∧ (s ≠ 0 → (custom_realloc ok base fuel st p s).1 = none →
          (custom_realloc ok base fuel st p s).2 = st)
      ∧ ((custom_calloc ok base fuel st n e).1 = none →
          (custom_calloc ok base fuel st n e).2 = st)
      ∧ custom_free fuel st none = st
      ∧ (st.start = none → custom_free fuel st p = st)
      ∧ (st.start = some hs → usub pa HSIZE = hs → custom_free fuel st (some pa) = st)
      ∧ (st.start = some hs → usub pa HSIZE ≠ hs →
          (find_block st (usub pa HSIZE) fuel (some hs) none = some .notFound
           ∨ find_block st (usub pa HSIZE) fuel (some hs) none = some .corrupted) →
          custom_free fuel st (some pa) = st) := by
  intro ok base fuel st p s n e pa hs hf
  refine ⟨malloc_none ok base fuel st s hf,
    fun h0 => realloc_none ok base fuel st p s hf h0,
    calloc_none ok base fuel st n e hf,
    rfl, ?_, ?_, ?_⟩
  · intro h
    cases p with
    | none => rfl
    | some q => simp [custom_free, h]
  · intro h1 h2; simp [custom_free, h1, h2]
  · intro h1 h2 h3
    simp only [custom_free, h1]
    rw [if_neg h2]
    rcases h3 with h | h <;> simp [h]

/-- C2 witness: the amended theorem applied at a concrete failing allocation
  (sbrk refused on the uninitialized heap cexHeapJ) and at a concrete
  non-null release no-op (the dummy head's data pointer 124 on cexHeapL). -/
theorem c2_failure_preserves_state_witness :
    (1 : Nat) ≤ 1 ∧ (custom_malloc false 0 1 cexHeapJ 5).2 = cexHeapJ
    ∧ custom_free 1 cexHeapL (some 124) = cexHeapL :=
  ⟨by decide,
   (c2_failure_preserves_state false 0 1 cexHeapJ none 5 0 0 124 100 (by decide)).1
     (by decide),
   (c2_failure_preserves_state false 0 1 cexHeapL none 5 0 0 124 100
      (by decide)).2.2.2.2.2.1 rfl (by decide)⟩

/-- C6: the eligibility check returns true for every block (for a last block
  unconditionally, for a non-last block because the unsigned comparison
  against zero always holds), so whenever the block lookup of a resize call
  succeeds the call returns the original pointer in place; the
  allocate-copy-release branch is never executed. -/
theorem c6_resize_always_in_place :
    (∀ (ok : Bool) (st : Heap) (b s : Nat), (can_expand ok st b s).1 = true)
    ∧ (∀ (ok : Bool) (base fuel : Nat) (st : Heap) (pa s : Nat) (prev : Option Nat),
        0 < s → HSIZE ≤ pa → pa < 2 ^ 64 →
        find_block st (usub pa HSIZE) fuel st.start none = some (.found prev) →
        (custom_realloc ok base fuel st (some pa) s).1 = some pa) := by
  refine ⟨can_expand_fst_true, ?_⟩
  intro ok base fuel st pa s prev hs hpa hpa2 hfb
  have hne : s ≠ 0 := by omega
  simp only [custom_realloc, if_neg hne, hfb]
  simp only [can_expand_fst_true, if_true]
  have hu : usub pa HSIZE = pa - HSIZE := usub_of_le pa HSIZE hpa hpa2
  simp [hu]
  omega

/-- C6 witness: a successful lookup in cexHeapA for the block at 148, and
  the resize of its data pointer 172 returning 172 itself. -/
theorem c6_resize_always_in_place_witness :
    find_block cexHeapA (usub 172 HSIZE) 9 cexHeapA.start none
      = some (.found (some 100))
    ∧ (custom_realloc true 0 9 cexHeapA (some 172) 8).1 = some 172 :=
  ⟨by decide,
   c6_resize_always_in_place.2 true 0 9 cexHeapA 172 8 (some 100)
     (by decide) (by decide) (by decide) (by decide)⟩

/-- C10: resizing the dummy head's own data pointer (heap start + header
  size) is not rejected: the block lookup matches the dummy head at the very
  first step, its recorded size is rewritten in place from 0 to the new size
  and the same pointer is returned, even though release is a no-op on the
  exact same address. -/
theorem c10_resize_dummy_head_accepted :
    ∀ (ok : Bool) (base fuel : Nat) (st : Heap) (hs s : Nat),
      st.start = some hs → 0 < s → 1 ≤ fuel → hs + HSIZE < 2 ^ 64 →
      (custom_realloc ok base fuel st (some (hs + HSIZE)) s).1 = some (hs + HSIZE)
      ∧ (readHdr (custom_realloc ok base fuel st (some (hs + HSIZE)) s).2 hs).dsize = s
      ∧ custom_free fuel st (some (hs + HSIZE)) = st := by
  intro ok base fuel st hs s hst hs0 hf hlt
  obtain ⟨f, rfl⟩ : ∃ f, fuel = f + 1 := ⟨fuel - 1, by omega⟩
  have hu : usub (hs + HSIZE) HSIZE = hs := by
    rw [usub_of_le _ _ (by omega) hlt]; omega
  have hne : s ≠ 0 := by omega
  have hfb : find_block st hs (f + 1) st.start none = some (.found none) := by
    rw [hst]; simp [find_block]
  refine ⟨?_, ?_, ?_⟩
  · simp only [custom_realloc, if_neg hne, hu, hfb]
    simp [can_expand_fst_true]
  · simp only [custom_realloc, if_neg hne, hu, hfb]
    simp [can_expand_fst_true, readHdr_writeHdr_self]
  · simp [custom_free, hst, hu]

/-- C10 witness: on cexHeapL the dummy head's data pointer is 124; resize to
  5 bytes succeeds in place while release of the same pointer is a no-op. -/
theorem c10_resize_dummy_head_accepted_witness :
    cexHeapL.start = some 100
    ∧ (custom_realloc true 0 9 cexHeapL (some (100 + HSIZE)) 5).1 = some (100 + HSIZE)
    ∧ (readHdr (custom_realloc true 0 9 cexHeapL (some (100 + HSIZE)) 5).2 100).dsize = 5
    ∧ custom_free 9 cexHeapL (some (100 + HSIZE)) = cexHeapL :=
  ⟨rfl,
   (c10_resize_dummy_head_accepted true 0 9 cexHeapL 100 5 rfl (by decide) (by decide)
     (by decide)).1,
   (c10_resize_dummy_head_accepted true 0 9 cexHeapL 100 5 rfl (by decide) (by decide)
     (by decide)).2.1,
   (c10_resize_dummy_head_accepted true 0 9 cexHeapL 100 5 rfl (by decide) (by decide)
     (by decide)).2.2⟩

/-- C8: release is a silent no-op, leaving the state untouched, when the
  pointer is null, when the heap was never initialized, when the candidate
  header address equals the heap start (the dummy head), and when the block
  lookup reports not-found or corruption.  The modelled function returns
  only the heap state (the C function returns void), so no failure can be
  signalled. -/
theorem c8_free_noop_cases :
    ∀ (fuel : Nat) (st : Heap) (p : Option Nat) (pa hs : Nat),
      custom_free fuel st none = st
      ∧ (st.start = none → custom_free fuel st p = st)
      ∧ (st.start = some hs → usub pa HSIZE = hs → custom_free fuel st (some pa) = st)
      ∧ (st.start = some hs → usub pa HSIZE ≠ hs →
          (find_block st (usub pa HSIZE) fuel (some hs) none = some .notFound
           ∨ find_block st (usub pa HSIZE) fuel (some hs) none = some .corrupted) →
          custom_free fuel st (some pa) = st) := by
  intro fuel st p pa hs
  refine ⟨rfl, ?_, ?_, ?_⟩
  · intro h; cases p with
    | none => rfl
    | some q => simp [custom_free, h]
  · intro h1 h2; simp [custom_free, h1, h2]
  · intro h1 h2 h3
    simp only [custom_free, h1]
    rw [if_neg h2]
    rcases h3 with h | h <;> simp [h]

/-- C8 witness: releasing the dummy head's data pointer 124 on cexHeapL is a
  no-op. -/
theorem c8_free_noop_cases_witness :
    cexHeapL.start = some 100 ∧ usub 124 HSIZE = 100
    ∧ custom_free 9 cexHeapL (some 124) = cexHeapL :=
  ⟨rfl, by decide, (c8_free_noop_cases 9 cexHeapL none 124 100).2.2.1 rfl (by decide)⟩

lemma readByte_writeByte_self (st : Heap) (a v : Nat) :
    readByte (writeByte st a v) a = v := by
  simp [readByte, writeByte, List.lookup]

lemma readByte_writeByte_ne (st : Heap) (b v x : Nat) (h : x ≠ b) :
    readByte (writeByte st b v) x = readByte st x := by
  unfold readByte writeByte
  simp only [List.lookup]
  have hbx : (x == b) = false := beq_eq_false_iff_ne.mpr h
  rw [hbx]

lemma memset_preserve (n : Nat) : ∀ (st : Heap) (b v x : Nat), x < b →
    readByte (memsetBytes st b v n) x = readByte st x := by
  induction n with
  | zero => intro st b v x h; rfl
  | succ n ih =>
    intro st b v x h
    simp only [memsetBytes]
    rw [ih (writeByte st b v) (b + 1) v x (by omega)]
    exact readByte_writeByte_ne st b v x (by omega)

lemma memset_zero (n : Nat) : ∀ (st : Heap) (a x : Nat), a ≤ x → x < a + n →
    readByte (memsetBytes st a 0 n) x = 0 := by
  induction n with
  | zero => intro st a x h1 h2; omega
  | succ n ih =>
    intro st a x h1 h2
    simp only [memsetBytes]
    by_cases hx : x = a
    · subst hx
      rw [memset_preserve n _ _ _ _ (by omega)]
      exact readByte_writeByte_self st x 0
    · exact ih (writeByte st a 0) (a + 1) x (by omega) (by omega)

/-- C7 counterexample: with count = elemSize = 2^32 the size_t product wraps
  to 0, so zeroAllocate delegates allocate(0), returns a (degenerate) non-null
  pointer, and zeroes nothing: the junk byte 7 sitting at the returned data
  address is still there among the "first count * elemSize bytes" the claim
  promises to be zero. -/
theorem c7_calloc_overflow_cex :
    (0 : Nat) < 2 ^ 32
    ∧ (custom_calloc true 100 2 cexHeapJ (2 ^ 32) (2 ^ 32)).1 = some 148
    ∧ (0 : Nat) < 2 ^ 32 * 2 ^ 32
    ∧ readByte (custom_calloc true 100 2 cexHeapJ (2 ^ 32) (2 ^ 32)).2 (148 + 0) = 7 := by
  refine ⟨by decide, by decide, by decide, by decide⟩

/-- C7 (amended): zeroAllocate returns null when either argument is 0; for
  nonzero arguments it delegates to allocate on total = count * elemSize
  reduced modulo 2^64 (the size_t product), propagates allocation failure as
  null, and on success every one of the first total data bytes of the
  returned pointer reads zero (for count * elemSize below 2^64 this is all
  count * elemSize bytes). -/
theorem c7_calloc_zero_allocate :
    ∀ (ok : Bool) (base fuel : Nat) (st : Heap) (n e a : Nat) (st2 : Heap),
      ((n = 0 ∨ e = 0) → custom_calloc ok base fuel st n e = (none, st))
      ∧ (n ≠ 0 → e ≠ 0 →
          (custom_calloc ok base fuel st n e).1
            = (custom_malloc ok base fuel st ((n * e) % 2 ^ 64)).1)
      ∧ (custom_calloc ok base fuel st n e = (some a, st2) →
          ∀ i, i < (n * e) % 2 ^ 64 → readByte st2 (a + i) = 0) := by
  intro ok base fuel st n e a st2
  refine ⟨?_, ?_, ?_⟩
  · intro h; rcases h with h | h <;> simp [custom_calloc, h]
  · intro h1 h2
    simp only [custom_calloc, h1, h2]
    simp only [Bool.or_self, decide_eq_true_eq, if_neg (by simp [h1, h2] : ¬(n = 0 || e = 0) = true)]
    cases hm : (custom_malloc ok base fuel st ((n * e) % 2 ^ 64)).1 with
    | none => simp [hm]
    | some a0 => simp [hm]
  · simp only [custom_calloc]
    split
    · intro hc
      have := congrArg Prod.fst hc
      simp at this
    · cases hm : (custom_malloc ok base fuel st ((n * e) % 2 ^ 64)).1 with
      | none => intro hc; simp [hm] at hc
      | some a0 =>
        intro hc i hi
        simp only [hm] at hc
        have h1 : a0 = a := by
          have := congrArg Prod.fst hc; simpa using this
        have h2 : st2 = memsetBytes (custom_malloc ok base fuel st ((n * e) % 2 ^ 64)).2 a0 0
            ((n * e) % 2 ^ 64) := by
          have := congrArg Prod.snd hc; simp at this; exact this.symm
        subst h1
        rw [h2]
        exact memset_zero _ _ _ _ (by omega) (by omega)

/-- C7 witness: calloc(1, 2) on a heap whose memory holds junk 7 at the
  address that gets returned; after the call the byte reads zero. -/
theorem c7_calloc_zero_allocate_witness :
    custom_calloc true 100 3 cexHeapJ 1 2
        = (some 148, (custom_calloc true 100 3 cexHeapJ 1 2).2)
    ∧ readByte cexHeapJ 148 = 7
    ∧ readByte (custom_calloc true 100 3 cexHeapJ 1 2).2 (148 + 0) = 0 :=
  ⟨by decide, by decide,
   (c7_calloc_zero_allocate true 100 3 cexHeapJ 1 2 148
       ((custom_calloc true 100 3 cexHeapJ 1 2).2)).2.2 (by decide) 0 (by decide)⟩

lemma insert_block_fields (st : Heap) (addr d : Nat) (prev nxt : Option Nat) :
    (insert_block st addr d prev nxt).start = st.start
    ∧ (insert_block st addr d prev nxt).hend = st.hend := by
  unfold insert_block writeHdr
  cases prev <;> simp

lemma expand_heap_step (ok : Bool) (st : Heap) (b bs : Nat) :
    (expand_heap ok st b bs).2.start = st.start
    ∧ st.hend ≤ (expand_heap ok st b bs).2.hend := by
  cases ok <;> simp only [expand_heap] <;> split <;> simp

lemma can_expand_step (ok : Bool) (st : Heap) (b s : Nat) :
    (can_expand ok st b s).2.start = st.start
    ∧ st.hend ≤ (can_expand ok st b s).2.hend := by
  unfold can_expand
  cases h : (readHdr st b).next
  · exact expand_heap_step ok st b (s + HSIZE)
  · exact ⟨rfl, le_rfl⟩

lemma memset_fields (n : Nat) : ∀ (st : Heap) (a v : Nat),
    (memsetBytes st a v n).start = st.start ∧ (memsetBytes st a v n).hend = st.hend := by
  induction n with
  | zero => intro st a v; exact ⟨rfl, rfl⟩
  | succ n ih =>
    intro st a v
    simp only [memsetBytes]
    exact ih (writeByte st a v) (a + 1) v

lemma memcpy_fields (n : Nat) : ∀ (st : Heap) (d q : Nat),
    (memcpyBytes st d q n).start = st.start ∧ (memcpyBytes st d q n).hend = st.hend := by
  induction n with
  | zero => intro st d q; exact ⟨rfl, rfl⟩
  | succ n ih =>
    intro st d q
    simp only [memcpyBytes]
    exact ih (writeByte st d (readByte st q)) (d + 1) (q + 1)

lemma free_fields (fuel : Nat) (st : Heap) (p : Option Nat) :
    (custom_free fuel st p).start = st.start ∧ (custom_free fuel st p).hend = st.hend := by
  cases p with
  | none => exact ⟨rfl, rfl⟩
  | some pa =>
    cases hst : st.start with
    | none => simp [custom_free, hst]
    | some hs =>
      simp only [custom_free, hst]
      split
      · exact ⟨hst, rfl⟩
      · split <;> exact ⟨hst, rfl⟩

lemma malloc_body_step (ok : Bool) (fuel : Nat) (ji : Bool) (st0 : Heap) (s hs : Nat) :
    (malloc_body ok fuel ji st0 s hs).2.start = st0.start
    ∧ st0.hend ≤ (malloc_body ok fuel ji st0 s hs).2.hend := by
  simp only [malloc_body]
  split
  · exact ⟨rfl, le_rfl⟩
  · exact ⟨rfl, le_rfl⟩
  · rename_i bstart prev nxt heq
    split
    next hcond =>
      split
      next hneg => exact expand_heap_step ok st0 bstart (HSIZE + s)
      next hpos =>
        refine ⟨?_, ?_⟩
        · rw [(insert_block_fields _ _ _ _ _).1, (expand_heap_step ok st0 bstart (HSIZE + s)).1]
        · rw [(insert_block_fields _ _ _ _ _).2]
          exact (expand_heap_step ok st0 bstart (HSIZE + s)).2
    next hcond =>
      split
      next h0 => simp at h0
      next h0 =>
        refine ⟨(insert_block_fields _ _ _ _ _).1, ?_⟩
        rw [(insert_block_fields _ _ _ _ _).2]

lemma find_block_start_none (st : Heap) (t fuel : Nat) (p0 q : Option Nat) :
    find_block st t fuel none p0 ≠ some (.found q) := by
  cases fuel <;> simp [find_block]

lemma malloc_full (ok : Bool) (base fuel : Nat) (st : Heap) (s : Nat) (hpre : HeapPre st) :
    (∀ a, st.start = some a → (custom_malloc ok base fuel st s).2.start = some a)
    ∧ st.hend ≤ (custom_malloc ok base fuel st s).2.hend
    ∧ HeapPre (custom_malloc ok base fuel st s).2 := by
  cases hst : st.start with
  | some hs =>
    simp only [custom_malloc, hst]
    have h := malloc_body_step ok fuel false st s hs
    refine ⟨?_, h.2, ?_⟩
    · intro a ha; rw [h.1, hst]; exact ha
    · intro hn; rw [h.1, hst] at hn; cases hn
  | none =>
    have h0 : st.hend = 0 := hpre hst
    simp only [custom_malloc, hst]
    split
    next heq =>
      have hof : ok = false := by
        cases hok : ok
        · rfl
        · rw [hok] at heq
          simp [init_heap, insert_block, writeHdr] at heq
      rw [hof]
      have he : init_heap false base st (HSIZE + s) = { st with start := none } := by
        simp [init_heap]
      rw [he]
      refine ⟨?_, le_rfl, ?_⟩
      · intro a ha; simp at ha
      · intro _; exact h0
    next hs2 heq =>
      have h := malloc_body_step ok fuel true (init_heap ok base st (HSIZE + s)) s hs2
      refine ⟨?_, ?_, ?_⟩
      · intro a ha; simp at ha
      · rw [h0]; exact Nat.zero_le _
      · intro hn
        rw [h.1, heq] at hn
        exact Option.noConfusion hn

lemma realloc_full (ok : Bool) (base fuel : Nat) (st : Heap) (p : Option Nat) (s : Nat)
    (hpre : HeapPre st) :
    (∀ a, st.start = some a → (custom_realloc ok base fuel st p s).2.start = some a)
    ∧ st.hend ≤ (custom_realloc ok base fuel st p s).2.hend
    ∧ HeapPre (custom_realloc ok base fuel st p s).2 := by
  cases p with
  | none => exact malloc_full ok base fuel st s hpre
  | some pa =>
    by_cases hs0 : s = 0
    · simp only [custom_realloc, hs0, if_pos]
      have h := free_fields fuel st (some pa)
      refine ⟨?_, le_of_eq h.2.symm, ?_⟩
      · intro a ha; rw [h.1, ha]
      · intro hn; rw [h.1] at hn; rw [h.2]; exact hpre hn
    · simp only [custom_realloc, if_neg hs0]
      cases hfb : find_block st (usub pa HSIZE) fuel st.start none with
      | none => exact ⟨fun a ha => ha, le_rfl, hpre⟩
      | some br =>
        cases br with
        | notFound => exact ⟨fun a ha => ha, le_rfl, hpre⟩
        | corrupted => exact ⟨fun a ha => ha, le_rfl, hpre⟩
        | found prev =>
          have hsome : st.start ≠ none := by
            intro hn
            rw [hn] at hfb
            exact find_block_start_none st (usub pa HSIZE) fuel none prev hfb
          simp only [can_expand_fst_true, if_true]
          have hce := can_expand_step ok st (usub pa HSIZE) s
          refine ⟨?_, ?_, ?_⟩
          · intro a ha
            rw [(show (writeHdr (can_expand ok st (usub pa HSIZE) s).2 (usub pa HSIZE)
              { readHdr (can_expand ok st (usub pa HSIZE) s).2 (usub pa HSIZE) with dsize := s }).start
                = (can_expand ok st (usub pa HSIZE) s).2.start from rfl), hce.1, ha]
          · exact hce.2
          · intro hn
            rw [(show (writeHdr (can_expand ok st (usub pa HSIZE) s).2 (usub pa HSIZE)
              { readHdr (can_expand ok st (usub pa HSIZE) s).2 (usub pa HSIZE) with dsize := s }).start
                = (can_expand ok st (usub pa HSIZE) s).2.start from rfl), hce.1] at hn
            exact absurd hn hsome

lemma calloc_full (ok : Bool) (base fuel : Nat) (st : Heap) (n e : Nat) (hpre : HeapPre st) :
    (∀ a, st.start = some a → (custom_calloc ok base fuel st n e).2.start = some a)
    ∧ st.hend ≤ (custom_calloc ok base fuel st n e).2.hend
    ∧ HeapPre (custom_calloc ok base fuel st n e).2 := by
  simp only [custom_calloc]
  split
  · exact ⟨fun a ha => ha, le_rfl, hpre⟩
  · have hm := malloc_full ok base fuel st ((n * e) % 2 ^ 64) hpre
    cases hmm : (custom_malloc ok base fuel st ((n * e) % 2 ^ 64)).1 with
    | none => exact hm
    | some a0 =>
      have hms := memset_fields ((n * e) % 2 ^ 64)
        (custom_malloc ok base fuel st ((n * e) % 2 ^ 64)).2 a0 0
      refine ⟨?_, ?_, ?_⟩
      · intro a ha; rw [hms.1]; exact hm.1 a ha
      · rw [hms.2]; exact hm.2.1
      · intro hn; rw [hms.1] at hn; rw [hms.2]; exact hm.2.2 hn

lemma runOp_step (op : AllocOp) (st : Heap) (hpre : HeapPre st) :
    (∀ a, st.start = some a → (runOp op st).start = some a)
    ∧ st.hend ≤ (runOp op st).hend
    ∧ HeapPre (runOp op st) := by
  cases op with
  | mallocOp ok base fuel s => exact malloc_full ok base fuel st s hpre
  | reallocOp ok base fuel p s => exact realloc_full ok base fuel st p s hpre
  | callocOp ok base fuel n e => exact calloc_full ok base fuel st n e hpre
  | freeOp fuel p =>
    simp only [runOp]
    have h := free_fields fuel st p
    refine ⟨?_, le_of_eq h.2.symm, ?_⟩
    · intro a ha; rw [h.1, ha]
    · intro hn; rw [h.1] at hn; rw [h.2]; exact hpre hn

/-- C9: over any sequence of the four public operations starting from a
  state obeying the pre-initialization discipline (heap_end is 0 while
  heap_start is still null, as in any real run), a non-null heap start is
  never changed and the heap end never decreases. -/
theorem c9_heap_pointers_monotone :
    ∀ (ops : List AllocOp) (st : Heap), HeapPre st →
      (∀ a, st.start = some a → (runOps ops st).start = some a)
      ∧ st.hend ≤ (runOps ops st).hend := by
  intro ops
  induction ops with
  | nil => intro st _; exact ⟨fun a ha => ha, le_rfl⟩
  | cons op rest ih =>
    intro st hpre
    have h1 := runOp_step op st hpre
    have h2 := ih (runOp op st) h1.2.2
    have hrw : runOps (op :: rest) st = runOps rest (runOp op st) := rfl
    rw [hrw]
    exact ⟨fun a ha => h2.1 a (h1.1 a ha), le_trans h1.2.1 h2.2⟩

/-- C9 witness: a concrete malloc-free-realloc sequence on cexHeapA keeps
  heap_start at 100 and does not shrink heap_end 300. -/
theorem c9_heap_pointers_monotone_witness :
    HeapPre cexHeapA
    ∧ (runOps [.freeOp 9 (some 172), .mallocOp true 0 9 50,
        .reallocOp false 0 9 (some 224) 500] cexHeapA).start = some 100
    ∧ cexHeapA.hend ≤ (runOps [.freeOp 9 (some 172), .mallocOp true 0 9 50,
        .reallocOp false 0 9 (some 224) 500] cexHeapA).hend :=
  ⟨by intro h; exact absurd h (by decide),
   (c9_heap_pointers_monotone [.freeOp 9 (some 172), .mallocOp true 0 9 50,
      .reallocOp false 0 9 (some 224) 500] cexHeapA
      (by intro h; exact absurd h (by decide))).1 100 rfl,
   (c9_heap_pointers_monotone [.freeOp 9 (some 172), .mallocOp true 0 9 50,
      .reallocOp false 0 9 (some 224) 500] cexHeapA
      (by intro h; exact absurd h (by decide))).2⟩

lemma okHdr_le (st : Heap) (b : Nat) (h : okHdr st b = true) : b ≤ st.hend - HSIZE := by
  by_cases hc : st.start.getD 0 ≤ b ∧ b ≤ st.hend - HSIZE
  · exact hc.2
  · exfalso
    have he : okHdr st b
        = if st.start.getD 0 ≤ b ∧ b ≤ st.hend - HSIZE then ((readHdr st b).magic == MAGIC)
          else false := rfl
    rw [he, if_neg hc] at h
    cases h

lemma find_opening_spec (st : Heap) (bsize : Nat) (hlt : st.hend < 2 ^ 64) :
    ∀ (rest : List Nat) (a fuel : Nat), chainB st a rest = true →
      rest.length + 1 ≤ fuel →
      find_opening st bsize fuel a = some (some (specFirstFit st bsize a rest)) := by
  intro rest
  induction rest with
  | nil =>
    intro a fuel hch hf
    obtain ⟨f, rfl⟩ : ∃ f, fuel = f + 1 := ⟨fuel - 1, by omega⟩
    have hnext : (readHdr st a).next = none := by
      simpa [chainB] using hch
    simp only [find_opening, hnext, specFirstFit]
    norm_num [Nat.add_assoc]
  | cons b rest ih =>
    intro a fuel hch hf
    obtain ⟨f, rfl⟩ : ∃ f, fuel = f + 1 := ⟨fuel - 1, by omega⟩
    simp only [chainB, Bool.and_eq_true, beq_iff_eq, decide_eq_true_eq] at hch
    obtain ⟨⟨⟨hnext, hle⟩, hok⟩, hch2⟩ := hch
    have hb : b ≤ st.hend - HSIZE := okHdr_le st b hok
    have hb2 : b < 2 ^ 64 := by omega
    have hassoc : a + (HSIZE + (readHdr st a).dsize) = a + HSIZE + (readHdr st a).dsize := by
      omega
    have hus : usub b (a + HSIZE + (readHdr st a).dsize)
        = b - (a + HSIZE + (readHdr st a).dsize) := usub_of_le _ _ (by omega) hb2
    simp only [find_opening, hnext, specFirstFit, hassoc, hus]
    by_cases hfit : bsize ≤ b - (a + HSIZE + (readHdr st a).dsize)
    · rw [if_pos hfit, if_pos hfit]
    · rw [if_neg hfit, if_neg hfit]
      have hvh : valid_header st (some b) = true := hok
      rw [if_pos hvh]
      have hf2 : rest.length + 1 ≤ f := by simp at hf; omega
      exact ih b f hch2 hf2

lemma chain_le (st : Heap) : ∀ (rest : List Nat) (a : Nat), chainB st a rest = true →
    ∀ x ∈ rest, a + HSIZE + (readHdr st a).dsize ≤ x := by
  intro rest
  induction rest with
  | nil => intro a _ x hx; cases hx
  | cons b rest ih =>
    intro a hch x hx
    simp only [chainB, Bool.and_eq_true, beq_iff_eq, decide_eq_true_eq] at hch
    obtain ⟨⟨⟨hnext, hle⟩, hok⟩, hch2⟩ := hch
    rcases List.mem_cons.mp hx with rfl | hx2
    · exact hle
    · have := ih b hch2 x hx2
      omega

lemma specFirstFit_min (st : Heap) (bsize : Nat) :
    ∀ (rest : List Nat) (a : Nat) (pre post : List Nat) (x y : Nat),
      chainB st a rest = true →
      a :: rest = pre ++ x :: y :: post →
      bsize ≤ y - (x + HSIZE + (readHdr st x).dsize) →
      (specFirstFit st bsize a rest).1 ≤ x + HSIZE + (readHdr st x).dsize := by
  intro rest
  induction rest with
  | nil =>
    intro a pre post x y hch heq hfit
    have hlen := congrArg List.length heq
    simp at hlen
    omega
  | cons b rest ih =>
    intro a pre post x y hch heq hfit
    have hch0 := hch
    simp only [chainB, Bool.and_eq_true, beq_iff_eq, decide_eq_true_eq] at hch
    obtain ⟨⟨⟨hnext, hle⟩, hok⟩, hch2⟩ := hch
    cases pre with
    | nil =>
      simp only [List.nil_append, List.cons.injEq] at heq
      obtain ⟨rfl, rfl, rfl⟩ := heq
      simp only [specFirstFit]
      rw [if_pos hfit]
    | cons p pre2 =>
      simp only [List.cons_append, List.cons.injEq] at heq
      obtain ⟨rfl, heq2⟩ := heq
      have hx : x ∈ b :: rest := by
        rw [heq2]
        simp
      simp only [specFirstFit]
      by_cases hfit1 : bsize ≤ b - (a + HSIZE + (readHdr st a).dsize)
      · rw [if_pos hfit1]
        have h1 := chain_le st (b :: rest) a hch0 x hx
        omega
      · rw [if_neg hfit1]
        exact ih b pre2 post x y hch2 heq2 hfit

/-- C5: first-fit placement.  On an initialized heap whose header chain from
  the dummy head is rest-shaped and uncorrupted, a successful allocate
  returns the pointer HSIZE past the placement that specFirstFit (the spec's
  first-fit selection over the gaps, trailing gap as fallback) computes, and
  that placement is at or before the end of every block whose successor gap
  could also hold the request — no higher-addressed sufficient gap is
  chosen over a lower one. -/
theorem c5_malloc_first_fit :
    ∀ (ok : Bool) (base fuel : Nat) (st : Heap) (s hs : Nat) (rest : List Nat)
      (r : Nat) (st2 : Heap),
      st.start = some hs → chainB st hs rest = true → st.hend < 2 ^ 64 →
      rest.length + 1 ≤ fuel →
      custom_malloc ok base fuel st s = (some r, st2) →
      r = (specFirstFit st (HSIZE + s) hs rest).1 + HSIZE
      ∧ (∀ (pre post : List Nat) (x y : Nat),
          hs :: rest = pre ++ x :: y :: post →
          HSIZE + s ≤ y - (x + HSIZE + (readHdr st x).dsize) →
          (specFirstFit st (HSIZE + s) hs rest).1 ≤ x + HSIZE + (readHdr st x).dsize) := by
  intro ok base fuel st s hs rest r st2 hst hch hlt hf hm
  refine ⟨?_, fun pre post x y heq hfit =>
    specFirstFit_min st (HSIZE + s) rest hs pre post x y hch heq hfit⟩
  have hfo := find_opening_spec st (HSIZE + s) hlt rest hs fuel hch hf
  rcases hsf : specFirstFit st (HSIZE + s) hs rest with ⟨g, pv, nx⟩
  rw [hsf] at hfo
  simp only [custom_malloc, hst, malloc_body, hfo] at hm
  show r = g + HSIZE
  split at hm
  next =>
    split at hm
    next => simp at hm
    next =>
      have h1 := congrArg Prod.fst hm
      simp at h1
      omega
  next =>
    split at hm
    next h0 => simp at h0
    next =>
      have h1 := congrArg Prod.fst hm
      simp at h1
      omega

/-- C5 witness: on cexHeapA (interior gaps of 24 bytes, too small for a
  10-byte request needing 34) malloc places in the trailing gap at 232 and
  returns 256, matching specFirstFit. -/
theorem c5_malloc_first_fit_witness :
    chainB cexHeapA 100 [148, 200] = true
    ∧ custom_malloc true 0 3 cexHeapA 10 = (some 256, (custom_malloc true 0 3 cexHeapA 10).2)
    ∧ 256 = (specFirstFit cexHeapA (HSIZE + 10) 100 [148, 200]).1 + HSIZE :=
  ⟨by decide, by decide,
   (c5_malloc_first_fit true 0 3 cexHeapA 10 100 [148, 200] 256
      ((custom_malloc true 0 3 cexHeapA 10).2) rfl (by decide) (by decide) (by decide)
      (by decide)).1⟩
